import Mathlib

/-!
Verification of the IMQS migrator's state-reconciliation engine (`main.go`).

The pure string functions of the program (`legacyMigrationVersion`,
`migrationNameFromFile`, `maxLegacyMigrationVersion`, `parseDBConStr`,
`makeConStr`) are translated directly from the Go source. The stateful part
(the `schema_migrations` table and the per-file transactions) is embedded as
explicit state passing over a small database model: the table is either
absent (fresh database), the legacy integer-keyed table, or the current
string-keyed table with `version` as primary key. Driver errors (a failing
SQL batch, a duplicate-key insert, a NULL scan) are environment inputs or
fixed message strings; a transaction that fails leaves the state unchanged
(rollback), mirroring the all-or-nothing transaction per file in the source.
Connection establishment and database creation (`connectOrCreate`) are I/O
against a live server and are abstracted away: the model's `runMigrations`
covers parse, bootstrap and the reconciliation loop, which is everything the
claims are about.
-/

deriving instance DecidableEq for Except

namespace Migrator

/-! ## Primitives modelling the Go standard library -/

/-- Go `strings.Split(s, sep)` for a one-character separator, on `List Char`.
The result is never `[]`: an empty input yields `[[]]`, as in Go. -/
def splitCharList (sep : Char) : List Char → List (List Char)
  | [] => [[]]
  | c :: cs =>
    match splitCharList sep cs with
    | h :: t => if c = sep then [] :: h :: t else (c :: h) :: t
    | [] => [[c]]

/-- Go `strings.Split` for a one-character separator. -/
def splitChar (sep : Char) (s : String) : List String :=
  (splitCharList sep s.data).map String.mk

/-- Go `strings.ToLower` restricted to ASCII (the migration filenames and
connection fields the program handles are ASCII). -/
def charToLowerGo (c : Char) : Char :=
  if 'A' ≤ c ∧ c ≤ 'Z' then Char.ofNat (c.toNat + 32) else c

/-- Go `strings.ToLower` (ASCII fragment). -/
def toLowerGo (s : String) : String :=
  String.mk (s.data.map charToLowerGo)

/-- Go `s[:len(s)-4]`, used by the source to strip the `".sql"` suffix.
Go slices bytes; since the suffix being stripped is the 4 ASCII bytes
`".sql"`, dropping 4 characters agrees with the source on its inputs. -/
def dropSuffix4 (s : String) : String :=
  String.mk (s.data.take (s.data.length - 4))

/-- Go `filepath.Base` for the slash-separated paths this program sees
(paths of `.sql` files, hence nonempty and without a trailing slash). -/
def filepathBase (p : String) : String :=
  (splitChar '/' p).getLastD p

/-- Decimal value of a digit string (most significant first). -/
def decDigitsVal (l : List Char) : Nat :=
  l.foldl (fun a c => a * 10 + (c.toNat - 48)) 0

/-- A decimal digit, as Go's `strconv` recognises them in base 10. -/
def isDigitChar (c : Char) : Bool :=
  '0' ≤ c && c ≤ '9'

/-- Nonempty and all decimal digits: the strings accepted by
`strconv.ParseInt(s, 10, 32)` after the optional sign. -/
def isDecDigits (l : List Char) : Bool :=
  !l.isEmpty && l.all isDigitChar

/-- The value Go's `strconv.ParseInt(·, 10, 32)` leaves in `v` for an
unsigned digit/sign-free body: 0 when the body is not a digit string
(syntax error), the value clamped to the `int32` range on overflow
(range error). The source ignores the returned error and uses `v`. -/
def goAtoi32 (l : List Char) (neg : Bool) : Int :=
  if isDecDigits l then
    let v : Int := if neg then -(decDigitsVal l : Int) else (decDigitsVal l : Int)
    if v > 2147483647 then 2147483647
    else if v < -2147483648 then -2147483648
    else v
  else 0

/-- Go `strconv.ParseInt(s, 10, 32)`, value component (the source discards
the error). An optional leading sign is followed by decimal digits. -/
def parseIntGo (s : String) : Int :=
  match s.data with
  | [] => 0
  | c :: rest =>
    if c = '+' then goAtoi32 rest false
    else if c = '-' then goAtoi32 rest true
    else goAtoi32 (c :: rest) false

/-- `pat` starts the list `l`. -/
def startsList : List Char → List Char → Bool
  | [], _ => true
  | _ :: _, [] => false
  | a :: as, b :: bs => a = b && startsList as bs

/-- `pat` occurs as a contiguous run somewhere in `l`. -/
def containsList (pat : List Char) : List Char → Bool
  | [] => startsList pat []
  | c :: cs => startsList pat (c :: cs) || containsList pat cs

/-- `pat` occurs as a contiguous substring of `s`. -/
def containsStr (pat s : String) : Bool :=
  containsList pat.data s.data

/-! ## The migrator's pure functions (translated from `main.go`) -/

/-- `migrationNameFromFile` (main.go): strip the directory, strip `.sql`,
lowercase. -/
def migrationNameFromFile (filename : String) : String :=
  toLowerGo (dropSuffix4 (filepathBase filename))

/-- `legacyMigrationVersion` (main.go): take the basename, drop the last
four bytes, split on `-`; the file is legacy when this yields exactly
`["0000", p1]` with `p1` nonempty, and the version is then
`ParseInt(p1, 10, 32)` with the parse error ignored. -/
def legacyMigrationVersion (sqlfile : String) : Int × Bool :=
  let s := dropSuffix4 (filepathBase sqlfile)
  match splitChar '-' s with
  | [p0, p1] =>
    if p0 = "0000" ∧ p1 ≠ "" then (parseIntGo p1, true) else ((0 : Int), false)
  | _ => ((0 : Int), false)

/-- `maxLegacyMigrationVersion` (main.go): running maximum of the legacy
versions, starting from 0. -/
def maxLegacyMigrationVersion (sqlFiles : List String) : Int :=
  sqlFiles.foldl
    (fun m file =>
      match legacyMigrationVersion file with
      | (v, true) => if v > m then v else m
      | (_, false) => m)
    0

/-! ## Connection descriptors -/

/-- The `dbCon` struct (main.go). Go zero values are empty strings. -/
structure DbCon where
  driver : String := ""
  host : String := ""
  port : String := ""
  dbname : String := ""
  user : String := ""
  password : String := ""
  sslmode : String := ""
deriving DecidableEq, Repr

/-- `dbCon.makeConStr` (main.go): `host= dbname= user=` always; ` port=`
unless the port is `"0"` or empty; ` password=` unless empty; ` sslmode=`
from the field, defaulting to `disable` when the field is empty. -/
def DbCon.makeConStr (c : DbCon) : String :=
  let s := "host=" ++ c.host ++ " dbname=" ++ c.dbname ++ " user=" ++ c.user
  let s := if c.port ≠ "0" ∧ c.port ≠ "" then s ++ " port=" ++ c.port else s
  let s := if c.password ≠ "" then s ++ " password=" ++ c.password else s
  if c.sslmode ≠ "" then s ++ " sslmode=" ++ c.sslmode else s ++ " sslmode=disable"

/-- `parseDBConStr` (main.go): split on `:`; exactly 6 parts mapping
positionally to driver, host, port, dbname, user, password; the driver must
be `postgres`. Errors carry the source's message text. -/
def parseDBConStr (dbStr : String) : Except String DbCon :=
  match splitChar ':' dbStr with
  | [d, h, po, dbn, u, pw] =>
    if d = "postgres" then
      .ok { driver := d, host := h, port := po, dbname := dbn, user := u, password := pw }
    else
      .error ("Postgres is the only supported database (not " ++ d ++ ")")
  | parts =>
    .error ("Invalid db connection string. Expected 6 colon-separated parts, but only got "
      ++ toString parts.length ++ " parts")

/-! ## The database model

The only persistent state the engine touches is the `schema_migrations`
table and the side effects of the migration SQL it executes. The table is
in one of the three states the spec's bootstrap distinguishes through the
`information_schema` query in `bootstrap` (main.go): absent (the query
returns no row), the legacy Albion table (`version INTEGER`, no `"char"` in
the reported type), or the current table (`version VARCHAR PRIMARY KEY`,
type contains `"char"`). Committed migration SQL is recorded as the list of
file paths whose SQL batch has been executed and committed; a rolled-back
transaction leaves both components unchanged. -/

/-- The `schema_migrations` table. -/
inductive MetaTable where
  | absent
  | legacy (rows : List Int)
  | current (rows : List String)
deriving DecidableEq, Repr

/-- The database: the meta table plus the committed SQL effects. -/
structure DB where
  meta : MetaTable
  executed : List String
deriving DecidableEq, Repr

/-- A migration file as the engine sees it: its path, plus the behaviour of
the environment on it — whether `ioutil.ReadFile` fails, and whether
executing its SQL text inside a transaction fails (and with what driver
message). `none` means success. -/
structure MigFile where
  path : String
  readErr : Option String
  execErr : Option String
deriving DecidableEq, Repr

/-- The driver's message for a primary-key violation on the insert into the
current `schema_migrations` table. -/
def duplicateKeyErr : String :=
  "pq: duplicate key value violates unique constraint \x22schema_migrations_pkey\x22"

/-- `SELECT max(version)` on an empty legacy table yields NULL, and
`Scan` into an `int` then fails; the source wraps that error. -/
def nullMaxScanErr : String :=
  "Unable to read max legacy version: sql: Scan error converting NULL to int"

/-- The switchover version-mismatch error (main.go): includes the expected
(`maxAvailable`) and actual (`maxDB`) versions, in that order. -/
def mismatchErr (avail actual : Int) : String :=
  "Unable to upgrade migration system. Expected database to be at migration "
    ++ toString avail ++ (", but it is at " ++ toString actual)

/-- Paths of a file list. -/
def migPaths (files : List MigFile) : List String :=
  files.map MigFile.path

/-- Migration names of a file list. -/
def migNames (files : List MigFile) : List String :=
  files.map (fun f => migrationNameFromFile f.path)

/-- The legacy-named files of a list, in order. -/
def legacyFiles (files : List MigFile) : List MigFile :=
  files.filter (fun f => (legacyMigrationVersion f.path).snd)

/-- The files that are not legacy-named, in order. -/
def stdFiles (files : List MigFile) : List MigFile :=
  files.filter (fun f => !(legacyMigrationVersion f.path).snd)

/-- `runMigration` (main.go): read the file, begin a transaction, execute
the SQL batch, insert the migration name into `schema_migrations`, commit.
A failing step rolls the transaction back, so on error the state is the
input state; the error is returned as-is (the read error alone is wrapped
with the filename). The insert fails on a duplicate primary key, on an
absent table, and on the legacy integer-typed table (the latter two are
unreachable from `runMigrations`). -/
def runMigration (db : DB) (f : MigFile) : Except String DB :=
  match f.readErr with
  | some e => .error ("Error reading migration file " ++ f.path ++ (": " ++ e))
  | none =>
    match f.execErr with
    | some e => .error e
    | none =>
      let migname := migrationNameFromFile f.path
      match db.meta with
      | .current rows =>
        if migname ∈ rows then .error duplicateKeyErr
        else .ok ⟨.current (rows ++ [migname]), db.executed ++ [f.path]⟩
      | .absent => .error ("pq: relation \x22schema_migrations\x22 does not exist")
      | .legacy _ => .error ("pq: invalid input syntax for integer")

/-- `getMigrationsInDB` (main.go): `SELECT version FROM schema_migrations`,
scanned into strings (integer rows scan losslessly into their decimal
form). Fails when the table is absent. -/
def getMigrationsInDB (db : DB) : Except String (List String) :=
  match db.meta with
  | .current rows => .ok rows
  | .legacy rows => .ok (rows.map toString)
  | .absent => .error ("pq: relation \x22schema_migrations\x22 does not exist")

/-- `runLegacyMigrations` (main.go): apply `runMigration` to each
legacy-named file in order, stopping at the first error. -/
def runLegacyMigrations : DB → List MigFile → DB × Option String
  | db, [] => (db, none)
  | db, f :: rest =>
    if (legacyMigrationVersion f.path).snd then
      match runMigration db f with
      | .ok db' => runLegacyMigrations db' rest
      | .error e => (db, some e)
    else runLegacyMigrations db rest

/-- The insert loop of `switchoverFromAlbion` (main.go): inside the single
transaction, insert the migration name of each legacy-named file into the
freshly created current table; a duplicate name violates the primary key. -/
def insertLegacyRows : List String → List MigFile → Except String (List String)
  | rows, [] => .ok rows
  | rows, f :: rest =>
    if (legacyMigrationVersion f.path).snd then
      let n := migrationNameFromFile f.path
      if n ∈ rows then .error duplicateKeyErr
      else insertLegacyRows (rows ++ [n]) rest
    else insertLegacyRows rows rest

/-- `SELECT max(version)` over the legacy rows (callers guard against the
empty table, where the scan of NULL fails instead). -/
def listMaxInt : List Int → Int
  | [] => 0
  | x :: xs => xs.foldl max x

/-- `switchoverFromAlbion` (main.go): read the legacy maximum, compare it
with the maximum legacy version of the file set, and only if they agree
run the single transaction that drops the legacy table, creates the current
one and records every legacy-named file as applied without executing its
SQL. Before the check passes nothing is written; a failure inside the
transaction rolls everything back. `bootstrap` only calls this in the
legacy state; the other branches model the failing `max(version)` scan. -/
def switchoverFromAlbion (db : DB) (files : List MigFile) : DB × Option String :=
  match db.meta with
  | .legacy rows =>
    if rows.isEmpty then (db, some nullMaxScanErr)
    else
      let maxDB := listMaxInt rows
      let maxAvailable := maxLegacyMigrationVersion (migPaths files)
      if maxDB ≠ maxAvailable then (db, some (mismatchErr maxAvailable maxDB))
      else
        match insertLegacyRows [] files with
        | .ok newRows => (⟨.current newRows, db.executed⟩, none)
        | .error e => (db, some e)
  | .absent => (db, some ("Unable to read max legacy version: pq: relation \x22schema_migrations\x22 does not exist"))
  | .current _ => (db, some ("Unable to read max legacy version: sql: Scan error converting text to int"))

/-- `bootstrap` (main.go): inspect the type of `schema_migrations.version`.
No row: fresh database — create the current table and replay the
legacy-named files. Type contains `"char"`: already current, nothing to do.
Otherwise: legacy — switch over from Albion. -/
def bootstrap (db : DB) (files : List MigFile) : DB × Option String :=
  match db.meta with
  | .absent => runLegacyMigrations ⟨.current [], db.executed⟩ files
  | .current _ => (db, none)
  | .legacy _ => switchoverFromAlbion db files

/-- The loop of `runMigrations` (main.go): the applied set `existing` is
computed once before the loop; each file whose migration name is not in it
is applied, counting it in `nrun` first; the first error stops the run. -/
def migrateLoop (existing : List String) : DB → List MigFile → Nat → DB × Nat × Option String
  | db, [], nrun => (db, nrun, none)
  | db, f :: rest, nrun =>
    if migrationNameFromFile f.path ∈ existing then
      migrateLoop existing db rest nrun
    else
      match runMigration db f with
      | .ok db' => migrateLoop existing db' rest (nrun + 1)
      | .error e => (db, nrun + 1, some e)

/-- The observable outcome of one reconciliation run: the final database
state, the number of migrations the loop attempted, the error (if any), and
whether the distinct `Database is up to date` message was printed. -/
structure RunResult where
  db : DB
  nrun : Nat
  err : Option String
  upToDateMsg : Bool
deriving DecidableEq, Repr

/-- `runMigrations` (main.go): parse the connection descriptor, bootstrap,
read the applied set, and apply every file whose name is not in it, in the
supplied order. (`connectOrCreate`, between parsing and bootstrap, is I/O
against the server and is abstracted away.) The `Database is up to date`
message is printed exactly when the loop finished without error and
applied nothing. -/
def runMigrations (dbStr : String) (db : DB) (files : List MigFile) : RunResult :=
  match parseDBConStr dbStr with
  | .error e => ⟨db, 0, some e, false⟩
  | .ok _ =>
    match bootstrap db files with
    | (db1, some e) => ⟨db1, 0, some e, false⟩
    | (db1, none) =>
      match getMigrationsInDB db1 with
      | .error e => ⟨db1, 0, some e, false⟩
      | .ok existing =>
        match migrateLoop existing db1 files 0 with
        | (db2, nrun, some e) => ⟨db2, nrun, some e, false⟩
        | (db2, nrun, none) => ⟨db2, nrun, none, nrun == 0⟩

/-- The files of the list that the loop will attempt, given the applied set
read before the loop. -/
def pendingFiles (existing : List String) (files : List MigFile) : List MigFile :=
  files.filter (fun f => decide (migrationNameFromFile f.path ∉ existing))

/-- Modelled from the spec: the spec's legacy-name grammar for a basename —
`0000-NNNN.sql` where `NNNN` is 1–4 decimal digits (zero-padded or not).
Used to compare the spec's classification with the source's. -/
def isLegacyNameSpec (b : String) : Bool :=
  match b.data with
  | '0' :: '0' :: '0' :: '0' :: '-' :: rest =>
    let d := rest.take (rest.length - 4)
    let suf := rest.drop (rest.length - 4)
    decide (suf = ['.', 's', 'q', 'l']) && decide (1 ≤ d.length) && decide (d.length ≤ 4)
      && d.all isDigitChar
  | _ => false

/-! ## Helper lemmas: strings and splitting -/

theorem str_ext {a b : String} (h : a.data = b.data) : a = b := by
  cases a; cases b; exact congrArg String.mk h

theorem str_mk_data (s : String) : String.mk s.data = s := by
  cases s; rfl

theorem strAppend_assoc (a b c : String) : a ++ b ++ c = a ++ (b ++ c) := by
  apply str_ext
  simp [String.data_append, List.append_assoc]

theorem strAppend_empty (a : String) : a ++ "" = a := by
  apply str_ext
  simp [String.data_append]

theorem splitCharList_ne_nil (sep : Char) (l : List Char) : splitCharList sep l ≠ [] := by
  cases l with
  | nil => simp [splitCharList]
  | cons c cs =>
    simp only [splitCharList]
    cases h : splitCharList sep cs with
    | nil => simp
    | cons h0 t => by_cases hc : c = sep <;> simp [hc]

theorem splitCharList_no_sep (sep : Char) (l : List Char) (h : sep ∉ l) :
    splitCharList sep l = [l] := by
  induction l with
  | nil => rfl
  | cons c cs ih =>
    have hc : c ≠ sep := fun hcs => h (hcs ▸ List.mem_cons_self c cs)
    have hcs : sep ∉ cs := fun hm => h (List.mem_cons_of_mem _ hm)
    simp only [splitCharList, ih hcs]
    simp [hc]

theorem splitCharList_sep_append (sep : Char) (a b : List Char) (ha : sep ∉ a) :
    splitCharList sep (a ++ sep :: b) = a :: splitCharList sep b := by
  induction a with
  | nil =>
    simp only [List.nil_append, splitCharList]
    cases h : splitCharList sep b with
    | nil => exact absurd h (splitCharList_ne_nil sep b)
    | cons h0 t => simp
  | cons c a' ih =>
    have hc : c ≠ sep := fun hcs => ha (hcs ▸ List.mem_cons_self c a')
    have ha' : sep ∉ a' := fun hm => ha (List.mem_cons_of_mem _ hm)
    simp only [List.cons_append, splitCharList, List.append_eq]
    rw [ih ha']
    simp [hc]

theorem splitCharList_eq_single (sep : Char) :
    ∀ l x : List Char, splitCharList sep l = [x] → l = x ∧ sep ∉ x := by
  intro l
  induction l with
  | nil =>
    intro x h
    simp [splitCharList] at h
    subst h
    simp
  | cons c cs ih =>
    intro x h
    simp only [splitCharList] at h
    cases hs : splitCharList sep cs with
    | nil => exact absurd hs (splitCharList_ne_nil sep cs)
    | cons h0 t =>
      rw [hs] at h
      by_cases hc : c = sep
      · simp [hc] at h
      · simp [hc] at h
        obtain ⟨hx, ht⟩ := h
        subst ht
        obtain ⟨hcs, hns⟩ := ih h0 hs
        subst hcs
        subst hx
        refine ⟨rfl, ?_⟩
        intro hm
        rcases List.mem_cons.mp hm with h | h
        · exact hc h.symm
        · exact hns h

theorem splitCharList_eq_pair (sep : Char) :
    ∀ l a b : List Char, splitCharList sep l = [a, b] →
      l = a ++ sep :: b ∧ sep ∉ a ∧ sep ∉ b := by
  intro l
  induction l with
  | nil => intro a b h; simp [splitCharList] at h
  | cons c cs ih =>
    intro a b h
    simp only [splitCharList] at h
    cases hs : splitCharList sep cs with
    | nil => exact absurd hs (splitCharList_ne_nil sep cs)
    | cons h0 t =>
      rw [hs] at h
      by_cases hc : c = sep
      · simp [hc] at h
        obtain ⟨ha, hh0, ht⟩ := h
        subst ht
        rw [hh0] at hs
        obtain ⟨hcs, hnb⟩ := splitCharList_eq_single sep cs b hs
        subst hcs
        subst hc
        subst ha
        exact ⟨by simp, by simp, hnb⟩
      · simp [hc] at h
        obtain ⟨ha, ht⟩ := h
        cases t with
        | nil => simp at ht
        | cons t0 tt =>
          simp at ht
          obtain ⟨hb, htt⟩ := ht
          subst htt
          rw [hb] at hs
          obtain ⟨hcs, hna, hnb⟩ := ih h0 b hs
          subst hcs
          subst ha
          refine ⟨by simp, ?_, hnb⟩
          intro hm
          rcases List.mem_cons.mp hm with h | h
          · exact hc h.symm
          · exact hna h

theorem splitChar_pair (sep : Char) (s a b : String) (h : splitChar sep s = [a, b]) :
    s.data = a.data ++ sep :: b.data ∧ sep ∉ a.data ∧ sep ∉ b.data := by
  unfold splitChar at h
  cases hs : splitCharList sep s.data with
  | nil => exact absurd hs (splitCharList_ne_nil sep s.data)
  | cons h0 t =>
    rw [hs] at h
    cases t with
    | nil => simp at h
    | cons t0 tt =>
      cases tt with
      | cons _ _ => simp at h
      | nil =>
        simp at h
        obtain ⟨ha, hb⟩ := h
        have := splitCharList_eq_pair sep s.data h0 t0 hs
        rw [← ha, ← hb]
        simpa using this

theorem splitChar_of_parts (sep : Char) (a b : String) (ha : sep ∉ a.data) (hb : sep ∉ b.data) :
    splitChar sep (a ++ String.mk (sep :: b.data)) = [a, b] := by
  unfold splitChar
  rw [String.data_append]
  show (splitCharList sep (a.data ++ sep :: b.data)).map String.mk = _
  rw [splitCharList_sep_append sep a.data b.data ha, splitCharList_no_sep sep b.data hb]
  simp [str_mk_data]

theorem dropSuffix4_concat (stem : String) : dropSuffix4 (stem ++ (".sql")) = stem := by
  apply str_ext
  unfold dropSuffix4
  rw [String.data_append]
  have h4 : (".sql" : String).data = ['.', 's', 'q', 'l'] := rfl
  rw [h4]
  simp [List.take_left]

/-! ## Helper lemmas: digit strings and `ParseInt` -/

theorem isDigitChar_bounds {c : Char} (h : isDigitChar c = true) :
    48 ≤ c.toNat ∧ c.toNat ≤ 57 := by
  simpa [isDigitChar, Char.le_def] using h

theorem digitsFold_lt :
    ∀ (l : List Char) (a : Nat), (∀ c ∈ l, isDigitChar c = true) →
      List.foldl (fun a c => a * 10 + (c.toNat - 48)) a l < (a + 1) * 10 ^ l.length := by
  intro l
  induction l with
  | nil => intro a _; simp
  | cons c rest ih =>
    intro a h
    obtain ⟨h1, h2⟩ := isDigitChar_bounds (h c (List.mem_cons_self c rest))
    have hrest : ∀ x ∈ rest, isDigitChar x = true :=
      fun x hx => h x (List.mem_cons_of_mem _ hx)
    have hih := ih (a * 10 + (c.toNat - 48)) hrest
    simp only [List.foldl_cons, List.length_cons]
    calc List.foldl (fun a c => a * 10 + (c.toNat - 48)) (a * 10 + (c.toNat - 48)) rest
        < (a * 10 + (c.toNat - 48) + 1) * 10 ^ rest.length := hih
      _ ≤ ((a + 1) * 10) * 10 ^ rest.length := Nat.mul_le_mul_right _ (by omega)
      _ = (a + 1) * 10 ^ (rest.length + 1) := by ring

theorem decDigitsVal_lt (l : List Char) (h : ∀ c ∈ l, isDigitChar c = true) :
    decDigitsVal l < 10 ^ l.length := by
  have := digitsFold_lt l 0 h
  simpa [decDigitsVal] using this

theorem isDecDigits_parts {l : List Char} (h : isDecDigits l = true) :
    l ≠ [] ∧ ∀ c ∈ l, isDigitChar c = true := by
  constructor
  · intro he
    subst he
    simp [isDecDigits] at h
  · intro c hc
    have := (by simpa [isDecDigits] using h : ¬l.isEmpty = true ∧ l.all isDigitChar = true)
    exact List.all_eq_true.mp this.2 c hc

theorem parseIntGo_digits (r : String) (hd : isDecDigits r.data = true)
    (hlen : r.data.length ≤ 4) : parseIntGo r = (decDigitsVal r.data : Int) := by
  obtain ⟨hne, hall⟩ := isDecDigits_parts hd
  cases hdata : r.data with
  | nil => rw [hdata] at hne; exact absurd rfl hne
  | cons c rest =>
    rw [hdata] at hall hd hlen
    obtain ⟨h48, h57⟩ := isDigitChar_bounds (hall c (List.mem_cons_self c rest))
    have hplus : ¬(c = '+') := by
      intro h; subst h; exact absurd h48 (by decide)
    have hminus : ¬(c = '-') := by
      intro h; subst h; exact absurd h48 (by decide)
    have hred : parseIntGo r = goAtoi32 (c :: rest) false := by
      unfold parseIntGo
      rw [hdata]
      simp [hplus, hminus]
    rw [hred]
    unfold goAtoi32
    rw [if_pos hd]
    have hlt : decDigitsVal (c :: rest) < 10 ^ (c :: rest).length :=
      decDigitsVal_lt _ hall
    have hpow : (10 : Nat) ^ (c :: rest).length ≤ 10 ^ 4 :=
      Nat.pow_le_pow_right (by norm_num) hlen
    have hbound : decDigitsVal (c :: rest) < 10000 := by
      calc decDigitsVal (c :: rest) < 10 ^ (c :: rest).length := hlt
        _ ≤ 10 ^ 4 := hpow
        _ = 10000 := by norm_num
    have h1 : ¬((decDigitsVal (c :: rest) : Int) > 2147483647) := by
      omega
    have h2 : ¬((decDigitsVal (c :: rest) : Int) < -2147483648) := by
      omega
    simp [h1, h2]

/-! ## Helper lemmas: the naming grammar -/

theorem legacyMigrationVersion_base (p stem : String)
    (hb : filepathBase p = stem ++ (".sql")) :
    legacyMigrationVersion p =
      (match splitChar '-' stem with
       | [p0, p1] =>
         if p0 = "0000" ∧ p1 ≠ "" then (parseIntGo p1, true) else ((0 : Int), false)
       | _ => ((0 : Int), false)) := by
  unfold legacyMigrationVersion
  rw [hb, dropSuffix4_concat]

theorem splitChar_legacy (r : String) (hr : '-' ∉ r.data) :
    splitChar '-' ("0000-" ++ r) = ["0000", r] := by
  unfold splitChar
  rw [String.data_append]
  have h1 : ("0000-" : String).data ++ r.data = ("0000" : String).data ++ '-' :: r.data := rfl
  rw [h1, splitCharList_sep_append '-' _ _ (by decide), splitCharList_no_sep '-' r.data hr]
  simp [str_mk_data]

theorem migrationNameFromFile_base (p stem : String)
    (hb : filepathBase p = stem ++ (".sql")) :
    migrationNameFromFile p = toLowerGo stem := by
  unfold migrationNameFromFile
  rw [hb, dropSuffix4_concat]

/-! ## Claim C6 -/

/-- Claim C6, counterexample: the claim's iff fails on `0000-x.sql` — the
spec's grammar requires 1–4 decimal digits after `0000-`, but the source
classifies the file as legacy (the `ParseInt` error is discarded and the
version is 0). -/
theorem claim_C6_cex :
    (legacyMigrationVersion ("0000-x.sql")).snd = true
      ∧ isLegacyNameSpec (filepathBase ("0000-x.sql")) = false
      ∧ (legacyMigrationVersion ("0000-x.sql")).fst = 0 := by
  decide

/-- Claim C6 (amended): for every path whose basename is `stem ++ ".sql"`,
the source classifies the file as legacy iff `stem` is `0000-` followed by a
nonempty dash-free remainder (the remainder need not be 1–4 digits); the
migration name of any file is the lowercased basename minus `.sql`; and
whenever the remainder is the spec's 1–4 decimal digits, the extracted
version is its integer value. -/
theorem claim_C6 (p stem : String) (hb : filepathBase p = stem ++ (".sql")) :
    ((legacyMigrationVersion p).snd = true ↔
        ∃ r : String, r ≠ "" ∧ '-' ∉ r.data ∧ stem = "0000-" ++ r)
      ∧ migrationNameFromFile p = toLowerGo stem
      ∧ (∀ r : String, stem = "0000-" ++ r → isDecDigits r.data = true →
          r.data.length ≤ 4 → (legacyMigrationVersion p).fst = (decDigitsVal r.data : Int)) := by
  have hbase := legacyMigrationVersion_base p stem hb
  refine ⟨?_, migrationNameFromFile_base p stem hb, ?_⟩
  · rw [hbase]
    constructor
    · intro h
      rcases hsc : splitChar '-' stem with _ | ⟨p0, _ | ⟨p1, _ | ⟨p2, t⟩⟩⟩
      · rw [hsc] at h; simp at h
      · rw [hsc] at h; simp at h
      · rw [hsc] at h
        by_cases hcnd : p0 = "0000" ∧ p1 ≠ ""
        · obtain ⟨h0, h1⟩ := hcnd
          obtain ⟨hdata, hna, hnb⟩ := splitChar_pair '-' stem p0 p1 hsc
          refine ⟨p1, h1, hnb, ?_⟩
          apply str_ext
          rw [String.data_append, hdata, h0]
          rfl
        · simp [hcnd] at h
      · rw [hsc] at h; simp at h
    · rintro ⟨r, hr, hnr, hstem⟩
      rw [hstem, splitChar_legacy r hnr]
      simp [hr]
  · intro r hstem hdig hlen
    have hall := (isDecDigits_parts hdig).2
    have hnr : '-' ∉ r.data := by
      intro hm
      exact absurd (hall '-' hm) (by decide)
    have hne : r ≠ "" := by
      intro h
      subst h
      exact absurd hdig (by decide)
    rw [hbase, hstem, splitChar_legacy r hnr]
    simp [hne]
    exact parseIntGo_digits r hdig hlen

/-- Claim C6, witness: `0000-0057.sql` instantiates the amended claim. -/
theorem claim_C6_witness :
    (legacyMigrationVersion ("0000-0057.sql")).snd = true ↔
      ∃ r : String, r ≠ "" ∧ '-' ∉ r.data ∧ ("0000-0057" : String) = "0000-" ++ r :=
  (claim_C6 ("0000-0057.sql") ("0000-0057") (by decide)).1

/-! ## Helper lemmas: connection descriptors -/

theorem parseDBConStr_ok (s : String) (c : DbCon) (h : parseDBConStr s = .ok c) :
    splitChar ':' s = [c.driver, c.host, c.port, c.dbname, c.user, c.password]
      ∧ c.driver = "postgres" ∧ c.sslmode = "" := by
  unfold parseDBConStr at h
  rcases hs : splitChar ':' s with _ | ⟨p1, _ | ⟨p2, _ | ⟨p3, _ | ⟨p4, _ | ⟨p5, _ | ⟨p6, _ | ⟨p7, t⟩⟩⟩⟩⟩⟩⟩ <;>
    rw [hs] at h
  · simp at h
  · simp at h
  · simp at h
  · simp at h
  · simp at h
  · simp at h
  · by_cases hd : p1 = "postgres"
    · subst hd
      simp at h
      subst h
      exact ⟨rfl, rfl, rfl⟩
    · simp [hd] at h
  · simp at h

theorem makeConStr_eq (c : DbCon) (h : c.sslmode = "") :
    DbCon.makeConStr c =
      "host=" ++ c.host ++ " dbname=" ++ c.dbname ++ " user=" ++ c.user
        ++ (if c.port ≠ "0" ∧ c.port ≠ "" then " port=" ++ c.port else "")
        ++ (if c.password ≠ "" then " password=" ++ c.password else "")
        ++ " sslmode=disable" := by
  unfold DbCon.makeConStr
  rw [h]
  by_cases h1 : c.port ≠ "0" ∧ c.port ≠ "" <;> by_cases h2 : c.password ≠ "" <;>
    simp [h1, h2, strAppend_assoc, strAppend_empty]

/-! ## Claim C7 -/

/-- Claim C7, counterexample: the claim's "port option iff port non-empty"
fails at port `"0"` — the source also omits the port when it is the
non-empty string `"0"`. -/
theorem claim_C7_cex :
    parseDBConStr ("postgres:h:0:db:u:pw")
        = .ok ⟨"postgres", "h", "0", "db", "u", "pw", ""⟩
      ∧ ("0" : String) ≠ ""
      ∧ DbCon.makeConStr ⟨"postgres", "h", "0", "db", "u", "pw", ""⟩
        = "host=h dbname=db user=u password=pw sslmode=disable"
      ∧ containsStr (" port=") ("host=h dbname=db user=u password=pw sslmode=disable") = false := by
  decide

/-- Claim C7 (amended): parsing a 6-field descriptor with the supported
driver is lossless (the six fields are kept verbatim, positionally), and
the generated connection string is host, dbname and user, plus the port
option iff the port is neither empty nor `"0"`, plus the password option
iff the password is non-empty, plus the trailing default
`sslmode=disable`. -/
theorem claim_C7 (s h po dbn u pw : String)
    (hs : splitChar ':' s = ["postgres", h, po, dbn, u, pw]) :
    parseDBConStr s = .ok ⟨"postgres", h, po, dbn, u, pw, ""⟩
      ∧ DbCon.makeConStr ⟨"postgres", h, po, dbn, u, pw, ""⟩ =
          "host=" ++ h ++ " dbname=" ++ dbn ++ " user=" ++ u
            ++ (if po ≠ "0" ∧ po ≠ "" then " port=" ++ po else "")
            ++ (if pw ≠ "" then " password=" ++ pw else "")
            ++ " sslmode=disable" := by
  constructor
  · unfold parseDBConStr
    rw [hs]
    simp
  · exact makeConStr_eq ⟨"postgres", h, po, dbn, u, pw, ""⟩ rfl

/-- Claim C7, witness. -/
theorem claim_C7_witness :
    parseDBConStr ("postgres:h:5432:db:u:pw") = .ok ⟨"postgres", "h", "5432", "db", "u", "pw", ""⟩
      ∧ DbCon.makeConStr ⟨"postgres", "h", "5432", "db", "u", "pw", ""⟩ =
          "host=" ++ "h" ++ " dbname=" ++ "db" ++ " user=" ++ "u"
            ++ (if ("5432" : String) ≠ "0" ∧ ("5432" : String) ≠ "" then " port=" ++ "5432" else "")
            ++ (if ("pw" : String) ≠ "" then " password=" ++ "pw" else "")
            ++ " sslmode=disable" :=
  claim_C7 ("postgres:h:5432:db:u:pw") "h" "5432" "db" "u" "pw" (by decide)

/-! ## Claim C8 -/

/-- Claim C8: parsing fails iff the string does not split into exactly 6
colon-separated fields or the driver field is not `postgres`; on success
the six fields map positionally onto the descriptor; on failure the run
returns at once with the database state untouched (no connection, no
bootstrap, no migration). -/
theorem claim_C8 (s : String) (db : DB) (files : List MigFile) :
    ((∃ c, parseDBConStr s = .ok c) ↔
        ((splitChar ':' s).length = 6 ∧ (splitChar ':' s).headD "" = "postgres"))
      ∧ (∀ c, parseDBConStr s = .ok c →
          splitChar ':' s = [c.driver, c.host, c.port, c.dbname, c.user, c.password]
            ∧ c.driver = "postgres" ∧ c.sslmode = "")
      ∧ (∀ e, parseDBConStr s = .error e →
          runMigrations s db files = ⟨db, 0, some e, false⟩) := by
  refine ⟨⟨?_, ?_⟩, fun c hc => parseDBConStr_ok s c hc, fun e he => ?_⟩
  · rintro ⟨c, hc⟩
    obtain ⟨hs, hd, _⟩ := parseDBConStr_ok s c hc
    rw [hs]
    exact ⟨by simp, by simp [hd]⟩
  · rintro ⟨hlen, hhead⟩
    rcases hs : splitChar ':' s with _ | ⟨p1, _ | ⟨p2, _ | ⟨p3, _ | ⟨p4, _ | ⟨p5, _ | ⟨p6, _ | ⟨p7, t⟩⟩⟩⟩⟩⟩⟩ <;>
      rw [hs] at hlen hhead
    · simp at hlen
    · simp at hlen
    · simp at hlen
    · simp at hlen
    · simp at hlen
    · simp at hlen
    · simp at hhead
      subst hhead
      refine ⟨⟨"postgres", p2, p3, p4, p5, p6, ""⟩, ?_⟩
      unfold parseDBConStr
      rw [hs]
      simp
    · simp at hlen
  · unfold runMigrations
    rw [he]

/-- Claim C8, witness: an unsupported driver fails the parse and leaves the
run's database state untouched. -/
theorem claim_C8_witness :
    runMigrations ("oracle:h:5432:db:u:pw") ⟨.absent, []⟩ [] =
      ⟨⟨.absent, []⟩, 0, some ("Postgres is the only supported database (not oracle)"), false⟩ :=
  (claim_C8 ("oracle:h:5432:db:u:pw") ⟨.absent, []⟩ []).2.2
    ("Postgres is the only supported database (not oracle)") (by decide)

/-! ## Claim C10 -/

/-- Claim C10: every connection string built from a descriptor produced by
the parser ends in `sslmode=disable` — the 6-field format has no sslmode
field, the parser leaves it empty, and the builder then appends the
`disable` default, so transport security cannot be enabled through the
parse-then-connect interface. -/
theorem claim_C10 (s : String) (c : DbCon) (h : parseDBConStr s = .ok c) :
    c.sslmode = "" ∧ ∃ pre, DbCon.makeConStr c = pre ++ " sslmode=disable" := by
  obtain ⟨_, _, hssl⟩ := parseDBConStr_ok s c h
  exact ⟨hssl, _, makeConStr_eq c hssl⟩

/-- Claim C10, witness. -/
theorem claim_C10_witness :
    (⟨"postgres", "h", "5432", "db", "u", "pw", ""⟩ : DbCon).sslmode = ""
      ∧ ∃ pre, DbCon.makeConStr ⟨"postgres", "h", "5432", "db", "u", "pw", ""⟩
          = pre ++ " sslmode=disable" :=
  claim_C10 ("postgres:h:5432:db:u:pw") ⟨"postgres", "h", "5432", "db", "u", "pw", ""⟩ (by decide)

/-! ## Helper lemmas: file lists -/

theorem migNames_nil : migNames [] = [] := rfl

theorem migNames_cons (f : MigFile) (l : List MigFile) :
    migNames (f :: l) = migrationNameFromFile f.path :: migNames l := rfl

theorem migNames_append (a b : List MigFile) :
    migNames (a ++ b) = migNames a ++ migNames b := by
  simp [migNames]

theorem migPaths_nil : migPaths [] = [] := rfl

theorem migPaths_cons (f : MigFile) (l : List MigFile) :
    migPaths (f :: l) = f.path :: migPaths l := rfl

theorem pendingFiles_nil (existing : List String) : pendingFiles existing [] = [] := rfl

theorem pendingFiles_cons_mem {existing : List String} {f : MigFile} (l : List MigFile)
    (h : migrationNameFromFile f.path ∈ existing) :
    pendingFiles existing (f :: l) = pendingFiles existing l := by
  simp [pendingFiles, List.filter_cons, h]

theorem pendingFiles_cons_notMem {existing : List String} {f : MigFile} (l : List MigFile)
    (h : migrationNameFromFile f.path ∉ existing) :
    pendingFiles existing (f :: l) = f :: pendingFiles existing l := by
  simp [pendingFiles, List.filter_cons, h]

theorem pendingFiles_append (existing : List String) (a b : List MigFile) :
    pendingFiles existing (a ++ b) = pendingFiles existing a ++ pendingFiles existing b := by
  simp [pendingFiles]

theorem mem_migNames_pending {existing : List String} {files : List MigFile} {f : MigFile}
    (hf : f ∈ files) (hn : migrationNameFromFile f.path ∉ existing) :
    migrationNameFromFile f.path ∈ migNames (pendingFiles existing files) := by
  unfold migNames pendingFiles
  exact List.mem_map_of_mem _ (List.mem_filter.mpr ⟨hf, by simpa using hn⟩)

/-! ## Helper lemmas: one migration -/

theorem runMigration_ok_run (db : DB) (f : MigFile) (rows : List String)
    (h1 : f.readErr = none) (h2 : f.execErr = none) (hm : db.meta = .current rows)
    (hmem : migrationNameFromFile f.path ∉ rows) :
    runMigration db f =
      .ok ⟨.current (rows ++ [migrationNameFromFile f.path]), db.executed ++ [f.path]⟩ := by
  simp [runMigration, h1, h2, hm, hmem]

theorem runMigration_execErr_eq (db : DB) (f : MigFile) (e : String)
    (h1 : f.readErr = none) (h2 : f.execErr = some e) :
    runMigration db f = .error e := by
  simp [runMigration, h1, h2]

theorem runMigration_dup (db : DB) (f : MigFile) (rows : List String)
    (h1 : f.readErr = none) (h2 : f.execErr = none) (hm : db.meta = .current rows)
    (hmem : migrationNameFromFile f.path ∈ rows) :
    runMigration db f = .error duplicateKeyErr := by
  simp [runMigration, h1, h2, hm, hmem]

theorem runMigration_ok_inv (db : DB) (f : MigFile) (db' : DB)
    (h : runMigration db f = .ok db') :
    ∃ rows, db.meta = .current rows ∧ migrationNameFromFile f.path ∉ rows ∧
      db' = ⟨.current (rows ++ [migrationNameFromFile f.path]), db.executed ++ [f.path]⟩ := by
  unfold runMigration at h
  cases hre : f.readErr with
  | some e => simp [hre] at h
  | none =>
    cases hee : f.execErr with
    | some e => simp [hre, hee] at h
    | none =>
      cases hmm : db.meta with
      | absent => simp [hre, hee, hmm] at h
      | legacy r => simp [hre, hee, hmm] at h
      | current rows =>
        by_cases hmem : migrationNameFromFile f.path ∈ rows
        · simp [hre, hee, hmm, hmem] at h
        · simp [hre, hee, hmm, hmem] at h
          exact ⟨rows, rfl, hmem, h.symm⟩

/-! ## Helper lemmas: the loop of `runMigrations` -/

theorem migrateLoop_skip_all (existing : List String) (db : DB) (n : Nat) :
    ∀ files : List MigFile, (∀ f ∈ files, migrationNameFromFile f.path ∈ existing) →
      migrateLoop existing db files n = (db, n, none) := by
  intro files
  induction files with
  | nil => intro _; rfl
  | cons f rest ih =>
    intro h
    have hf := h f (List.mem_cons_self f rest)
    simp only [migrateLoop, if_pos hf]
    exact ih (fun g hg => h g (List.mem_cons_of_mem _ hg))

theorem migrateLoop_append (existing : List String) (a b : List MigFile) :
    ∀ (db : DB) (n : Nat),
      migrateLoop existing db (a ++ b) n =
        (match migrateLoop existing db a n with
         | (db1, n1, none) => migrateLoop existing db1 b n1
         | (db1, n1, some e) => (db1, n1, some e)) := by
  induction a with
  | nil => intro db n; rfl
  | cons f a2 ih =>
    intro db n
    simp only [List.cons_append, migrateLoop]
    by_cases hf : migrationNameFromFile f.path ∈ existing
    · simp only [if_pos hf]
      exact ih db n
    · simp only [if_neg hf]
      cases hr : runMigration db f with
      | ok db2 => exact ih db2 (n + 1)
      | error e => rfl

theorem migrateLoop_success (existing : List String) :
    ∀ (files : List MigFile) (rows exec : List String) (n : Nat),
      (migNames (pendingFiles existing files)).Nodup →
      (∀ f ∈ files, migrationNameFromFile f.path ∉ existing →
        f.readErr = none ∧ f.execErr = none ∧ migrationNameFromFile f.path ∉ rows) →
      migrateLoop existing ⟨.current rows, exec⟩ files n =
        (⟨.current (rows ++ migNames (pendingFiles existing files)),
          exec ++ migPaths (pendingFiles existing files)⟩,
         n + (pendingFiles existing files).length, none) := by
  intro files
  induction files with
  | nil =>
    intro rows exec n _ _
    simp [migrateLoop, pendingFiles_nil, migNames_nil, migPaths_nil]
  | cons f rest ih =>
    intro rows exec n hnd hok
    by_cases hf : migrationNameFromFile f.path ∈ existing
    · rw [pendingFiles_cons_mem rest hf] at hnd ⊢
      simp only [migrateLoop, if_pos hf]
      exact ih rows exec n hnd (fun g hg => hok g (List.mem_cons_of_mem _ hg))
    · rw [pendingFiles_cons_notMem rest hf] at hnd ⊢
      obtain ⟨hre, hee, hrows⟩ := hok f (List.mem_cons_self f rest) hf
      rw [migNames_cons] at hnd
      have hnd2 := (List.nodup_cons.mp hnd).2
      have hhead := (List.nodup_cons.mp hnd).1
      have hrun := runMigration_ok_run ⟨.current rows, exec⟩ f rows hre hee rfl hrows
      simp only [migNames_cons, migPaths_cons, List.length_cons]
      rw [List.append_cons rows (migrationNameFromFile f.path) (migNames (pendingFiles existing rest)),
        List.append_cons exec f.path (migPaths (pendingFiles existing rest))]
      have harith : n + ((pendingFiles existing rest).length + 1)
          = (n + 1) + (pendingFiles existing rest).length := by omega
      rw [harith]
      simp only [migrateLoop, if_neg hf]
      rw [hrun]
      show migrateLoop existing
          ⟨.current (rows ++ [migrationNameFromFile f.path]), exec ++ [f.path]⟩ rest (n + 1) = _
      refine ih (rows ++ [migrationNameFromFile f.path]) (exec ++ [f.path]) (n + 1) hnd2 ?_
      intro g hg hgn
      obtain ⟨hgre, hgee, hgrows⟩ := hok g (List.mem_cons_of_mem _ hg) hgn
      refine ⟨hgre, hgee, ?_⟩
      intro hmem
      rcases List.mem_append.mp hmem with hin | hin
      · exact hgrows hin
      · have : migrationNameFromFile g.path = migrationNameFromFile f.path := by
          simpa using hin
        exact hhead (this ▸ mem_migNames_pending hg hgn)

theorem migrateLoop_fail_head (existing : List String) (db : DB) (f : MigFile)
    (rest : List MigFile) (n : Nat) (e : String)
    (hf : migrationNameFromFile f.path ∉ existing)
    (h : runMigration db f = .error e) :
    migrateLoop existing db (f :: rest) n = (db, n + 1, some e) := by
  simp only [migrateLoop, if_neg hf]
  rw [h]

theorem migrateLoop_none (existing : List String) :
    ∀ (files : List MigFile) (db : DB) (rows : List String) (n : Nat) (db' : DB) (n' : Nat),
      db.meta = .current rows →
      migrateLoop existing db files n = (db', n', none) →
      ∃ d, db'.meta = .current (rows ++ d)
        ∧ ∀ f ∈ files, migrationNameFromFile f.path ∈ existing
            ∨ migrationNameFromFile f.path ∈ rows ++ d := by
  intro files
  induction files with
  | nil =>
    intro db rows n db' n' hm h
    simp only [migrateLoop] at h
    obtain ⟨h1, _, _⟩ := Prod.mk.injEq .. ▸ h
    refine ⟨[], ?_, by simp⟩
    rw [← h1, hm, List.append_nil]
  | cons f rest ih =>
    intro db rows n db' n' hm h
    by_cases hf : migrationNameFromFile f.path ∈ existing
    · simp only [migrateLoop, if_pos hf] at h
      obtain ⟨d, hd1, hd2⟩ := ih db rows n db' n' hm h
      refine ⟨d, hd1, ?_⟩
      intro g hg
      rcases List.mem_cons.mp hg with rfl | hg2
      · exact Or.inl hf
      · exact hd2 g hg2
    · simp only [migrateLoop, if_neg hf] at h
      cases hr : runMigration db f with
      | error e => rw [hr] at h; simp at h
      | ok db2 =>
        rw [hr] at h
        obtain ⟨rows0, hm0, _, hdb2⟩ := runMigration_ok_inv db f db2 hr
        rw [hm] at hm0
        have heq : rows = rows0 := MetaTable.current.inj hm0
        rw [← heq] at hdb2
        have hm2 : db2.meta = .current (rows ++ [migrationNameFromFile f.path]) := by
          rw [hdb2]
        obtain ⟨d, hd1, hd2⟩ := ih db2 (rows ++ [migrationNameFromFile f.path]) (n + 1) db' n' hm2 h
        refine ⟨migrationNameFromFile f.path :: d, ?_, ?_⟩
        · rw [hd1]
          simp
        · intro g hg
          rcases List.mem_cons.mp hg with rfl | hg2
          · exact Or.inr (by simp)
          · rcases hd2 g hg2 with hin | hin
            · exact Or.inl hin
            · refine Or.inr ?_
              rcases List.mem_append.mp hin with h1 | h1
              · rcases List.mem_append.mp h1 with h2 | h2
                · exact List.mem_append_left _ h2
                · refine List.mem_append_right _ ?_
                  simpa using Or.inl (by simpa using h2)
              · exact List.mem_append_right _ (by simp [h1])

/-! ## Helper lemmas: legacy files, switchover and bootstrap -/

theorem legacyFiles_nil : legacyFiles [] = [] := rfl

theorem legacyFiles_cons_pos {f : MigFile} (l : List MigFile)
    (h : (legacyMigrationVersion f.path).snd = true) :
    legacyFiles (f :: l) = f :: legacyFiles l := by
  simp [legacyFiles, List.filter_cons, h]

theorem legacyFiles_cons_neg {f : MigFile} (l : List MigFile)
    (h : ¬(legacyMigrationVersion f.path).snd = true) :
    legacyFiles (f :: l) = legacyFiles l := by
  simp [legacyFiles, List.filter_cons, h]

theorem runLegacyMigrations_success :
    ∀ (files : List MigFile) (rows exec : List String),
      (rows ++ migNames (legacyFiles files)).Nodup →
      (∀ f ∈ files, (legacyMigrationVersion f.path).snd = true →
        f.readErr = none ∧ f.execErr = none) →
      runLegacyMigrations ⟨.current rows, exec⟩ files =
        (⟨.current (rows ++ migNames (legacyFiles files)),
          exec ++ migPaths (legacyFiles files)⟩, none) := by
  intro files
  induction files with
  | nil =>
    intro rows exec _ _
    simp [runLegacyMigrations, legacyFiles_nil, migNames_nil, migPaths_nil]
  | cons f rest ih =>
    intro rows exec hnd hok
    by_cases hl : (legacyMigrationVersion f.path).snd = true
    · rw [legacyFiles_cons_pos rest hl] at hnd ⊢
      rw [migNames_cons] at hnd
      obtain ⟨hre, hee⟩ := hok f (List.mem_cons_self f rest) hl
      have hdisj := (List.nodup_append.mp hnd).2.2
      have hrows : migrationNameFromFile f.path ∉ rows :=
        fun hmem => hdisj hmem (List.mem_cons_self ..)
      have hrun := runMigration_ok_run ⟨.current rows, exec⟩ f rows hre hee rfl hrows
      simp only [migNames_cons, migPaths_cons]
      rw [List.append_cons rows (migrationNameFromFile f.path) (migNames (legacyFiles rest)),
        List.append_cons exec f.path (migPaths (legacyFiles rest))]
      simp only [runLegacyMigrations, if_pos hl]
      rw [hrun]
      show runLegacyMigrations
          ⟨.current (rows ++ [migrationNameFromFile f.path]), exec ++ [f.path]⟩ rest = _
      refine ih (rows ++ [migrationNameFromFile f.path]) (exec ++ [f.path]) ?_
        (fun g hg => hok g (List.mem_cons_of_mem _ hg))
      rw [List.append_cons] at hnd
      exact hnd
    · rw [legacyFiles_cons_neg rest hl] at hnd ⊢
      simp only [runLegacyMigrations, if_neg hl]
      exact ih rows exec hnd (fun g hg => hok g (List.mem_cons_of_mem _ hg))

theorem runLegacyMigrations_none :
    ∀ (files : List MigFile) (db db' : DB) (rows : List String),
      db.meta = .current rows →
      runLegacyMigrations db files = (db', none) →
      ∃ rows', db'.meta = .current rows' := by
  intro files
  induction files with
  | nil =>
    intro db db' rows hm h
    simp only [runLegacyMigrations] at h
    obtain ⟨h1, _⟩ := Prod.mk.inj h
    exact ⟨rows, h1 ▸ hm⟩
  | cons f rest ih =>
    intro db db' rows hm h
    by_cases hl : (legacyMigrationVersion f.path).snd = true
    · simp only [runLegacyMigrations, if_pos hl] at h
      cases hr : runMigration db f with
      | error e => rw [hr] at h; simp at h
      | ok db2 =>
        rw [hr] at h
        obtain ⟨rows0, _, _, hdb2⟩ := runMigration_ok_inv db f db2 hr
        exact ih db2 db' (rows0 ++ [migrationNameFromFile f.path]) (by rw [hdb2]) h
    · simp only [runLegacyMigrations, if_neg hl] at h
      exact ih db db' rows hm h

theorem insertLegacyRows_ok :
    ∀ (files : List MigFile) (acc : List String),
      (acc ++ migNames (legacyFiles files)).Nodup →
      insertLegacyRows acc files = .ok (acc ++ migNames (legacyFiles files)) := by
  intro files
  induction files with
  | nil =>
    intro acc _
    simp [insertLegacyRows, legacyFiles_nil, migNames_nil]
  | cons f rest ih =>
    intro acc hnd
    by_cases hl : (legacyMigrationVersion f.path).snd = true
    · rw [legacyFiles_cons_pos rest hl] at hnd ⊢
      rw [migNames_cons] at hnd
      have hdisj := (List.nodup_append.mp hnd).2.2
      have hacc : migrationNameFromFile f.path ∉ acc :=
        fun hmem => hdisj hmem (List.mem_cons_self ..)
      simp only [migNames_cons]
      rw [List.append_cons acc (migrationNameFromFile f.path) (migNames (legacyFiles rest))]
      simp only [insertLegacyRows, if_pos hl, if_neg hacc]
      refine ih (acc ++ [migrationNameFromFile f.path]) ?_
      rw [List.append_cons] at hnd
      exact hnd
    · rw [legacyFiles_cons_neg rest hl] at hnd ⊢
      simp only [insertLegacyRows, if_neg hl]
      exact ih acc hnd

theorem insertLegacyRows_err :
    ∀ (files : List MigFile) (acc : List String),
      acc.Nodup →
      ¬ (acc ++ migNames (legacyFiles files)).Nodup →
      insertLegacyRows acc files = .error duplicateKeyErr := by
  intro files
  induction files with
  | nil =>
    intro acc hacc hnd
    rw [legacyFiles_nil, migNames_nil, List.append_nil] at hnd
    exact absurd hacc hnd
  | cons f rest ih =>
    intro acc hacc hnd
    by_cases hl : (legacyMigrationVersion f.path).snd = true
    · rw [legacyFiles_cons_pos rest hl, migNames_cons] at hnd
      by_cases hmem : migrationNameFromFile f.path ∈ acc
      · simp only [insertLegacyRows, if_pos hl, if_pos hmem]
      · simp only [insertLegacyRows, if_pos hl, if_neg hmem]
        refine ih (acc ++ [migrationNameFromFile f.path]) ?_ ?_
        · simp [List.nodup_append, hacc, hmem]
        · rw [← List.append_cons]
          exact hnd
    · rw [legacyFiles_cons_neg rest hl] at hnd
      simp only [insertLegacyRows, if_neg hl]
      exact ih acc hacc hnd

theorem bootstrap_none (db : DB) (files : List MigFile) (db1 : DB)
    (h : bootstrap db files = (db1, none)) :
    ∃ rows, db1.meta = .current rows := by
  unfold bootstrap at h
  cases hm : db.meta with
  | absent =>
    rw [hm] at h
    exact runLegacyMigrations_none files ⟨.current [], db.executed⟩ db1 [] rfl h
  | current rows =>
    rw [hm] at h
    obtain ⟨h1, _⟩ := Prod.mk.inj h
    exact ⟨rows, h1 ▸ hm⟩
  | legacy rows =>
    rw [hm] at h
    unfold switchoverFromAlbion at h
    rw [hm] at h
    cases rows with
    | nil => simp at h
    | cons x xs =>
      by_cases hd : listMaxInt (x :: xs) ≠ maxLegacyMigrationVersion (migPaths files)
      · simp [hd] at h
      · cases hins : insertLegacyRows [] files with
        | error e => simp [hd, hins] at h
        | ok r =>
          simp [hd, hins] at h
          exact ⟨r, by rw [← h]⟩

theorem runMigrations_eq_of (dbStr : String) (c : DbCon) (db db1 : DB)
    (existing : List String) (db2 : DB) (n : Nat) (files : List MigFile)
    (hp : parseDBConStr dbStr = .ok c)
    (hb : bootstrap db files = (db1, none))
    (hg : getMigrationsInDB db1 = .ok existing)
    (hl : migrateLoop existing db1 files 0 = (db2, n, none)) :
    runMigrations dbStr db files = ⟨db2, n, none, n == 0⟩ := by
  unfold runMigrations
  simp only [hp, hb, hg, hl]

theorem runMigrations_eq_of_err (dbStr : String) (c : DbCon) (db db1 : DB)
    (existing : List String) (db2 : DB) (n : Nat) (files : List MigFile) (e : String)
    (hp : parseDBConStr dbStr = .ok c)
    (hb : bootstrap db files = (db1, none))
    (hg : getMigrationsInDB db1 = .ok existing)
    (hl : migrateLoop existing db1 files 0 = (db2, n, some e)) :
    runMigrations dbStr db files = ⟨db2, n, some e, false⟩ := by
  unfold runMigrations
  simp only [hp, hb, hg, hl]

/-! ## Claim C1 -/

/-- Claim C1: in the legacy state, whenever the applied maximum read from
the legacy `schema_migrations` table differs from the maximum legacy
version among the files (0 when no legacy files), the switchover — and the
whole bootstrap — fails with the version-mismatch error carrying both the
expected (`maxAvailable`) and actual (`maxApplied`) numbers, and the
database state is returned unchanged: nothing is written before the check
passes. -/
theorem claim_C1 (db : DB) (rows : List Int) (files : List MigFile)
    (hm : db.meta = .legacy rows) (hne : rows ≠ [])
    (hdiff : listMaxInt rows ≠ maxLegacyMigrationVersion (migPaths files)) :
    switchoverFromAlbion db files
        = (db, some (mismatchErr (maxLegacyMigrationVersion (migPaths files)) (listMaxInt rows)))
      ∧ bootstrap db files
        = (db, some (mismatchErr (maxLegacyMigrationVersion (migPaths files)) (listMaxInt rows)))
      ∧ ∃ a b c_, mismatchErr (maxLegacyMigrationVersion (migPaths files)) (listMaxInt rows)
          = a ++ (toString (maxLegacyMigrationVersion (migPaths files))
              ++ (b ++ (toString (listMaxInt rows) ++ c_))) := by
  have hsw : switchoverFromAlbion db files
      = (db, some (mismatchErr (maxLegacyMigrationVersion (migPaths files)) (listMaxInt rows))) := by
    cases rows with
    | nil => exact absurd rfl hne
    | cons x xs =>
      unfold switchoverFromAlbion
      rw [hm]
      simp [hdiff]
  refine ⟨hsw, ?_, ?_⟩
  · unfold bootstrap
    rw [hm]
    exact hsw
  · refine ⟨"Unable to upgrade migration system. Expected database to be at migration ",
      ", but it is at ", "", ?_⟩
    simp [mismatchErr, strAppend_assoc, strAppend_empty]

/-- Claim C1, witness: a legacy table at max 56 against a file set whose
max legacy version is 57. -/
theorem claim_C1_witness :
    switchoverFromAlbion ⟨.legacy [1, 56], []⟩ [⟨"0000-0057.sql", none, none⟩]
      = (⟨.legacy [1, 56], []⟩,
          some (mismatchErr
            (maxLegacyMigrationVersion (migPaths [⟨"0000-0057.sql", none, none⟩]))
            (listMaxInt [1, 56]))) :=
  (claim_C1 ⟨.legacy [1, 56], []⟩ [1, 56] [⟨"0000-0057.sql", none, none⟩]
    rfl (by decide) (by decide)).1

/-! ## Claim C2 -/

/-- Claim C2: when the switchover precondition holds, the single
transaction replaces the legacy table by the current one containing
exactly one row per legacy-named file — its lowercased migration name — and
executes no file's SQL (the committed-SQL log is unchanged, whatever each
file's SQL would do); if a step fails (a duplicate legacy name violates the
primary key), the transaction rolls back, the state is unchanged and the
error is returned. -/
theorem claim_C2 (db : DB) (rows : List Int) (files : List MigFile)
    (hm : db.meta = .legacy rows) (hne : rows ≠ [])
    (heq : listMaxInt rows = maxLegacyMigrationVersion (migPaths files)) :
    ((migNames (legacyFiles files)).Nodup →
        switchoverFromAlbion db files
          = (⟨.current (migNames (legacyFiles files)), db.executed⟩, none))
      ∧ (¬ (migNames (legacyFiles files)).Nodup →
        switchoverFromAlbion db files = (db, some duplicateKeyErr)) := by
  cases rows with
  | nil => exact absurd rfl hne
  | cons x xs =>
    constructor
    · intro hnd
      have hins := insertLegacyRows_ok files [] (by simpa using hnd)
      unfold switchoverFromAlbion
      rw [hm]
      simp [heq, hins]
    · intro hnd
      have herr := insertLegacyRows_err files [] (by simp) (by simpa using hnd)
      unfold switchoverFromAlbion
      rw [hm]
      simp [heq, herr]

/-- Claim C2, witness: the spec's scenario — a legacy table at max 37 and
legacy files 1 and 37; the switchover records both legacy names without
executing anything. -/
theorem claim_C2_witness :
    switchoverFromAlbion ⟨.legacy [1, 37], []⟩
        [⟨"0000-0001.sql", none, none⟩, ⟨"0000-0037.sql", none, none⟩,
          ⟨"2018-01-15-a.sql", none, none⟩]
      = (⟨.current (migNames (legacyFiles
            [⟨"0000-0001.sql", none, none⟩, ⟨"0000-0037.sql", none, none⟩,
              ⟨"2018-01-15-a.sql", none, none⟩])), []⟩, none) :=
  (claim_C2 ⟨.legacy [1, 37], []⟩ [1, 37]
    [⟨"0000-0001.sql", none, none⟩, ⟨"0000-0037.sql", none, none⟩,
      ⟨"2018-01-15-a.sql", none, none⟩]
    rfl (by decide) (by decide)).1 (by decide)

/-! ## Claim C4 -/

/-- Claim C4: the reconciliation engine is idempotent — immediately after a
successful run, a second run applies zero migrations, leaves the final
database state (including `schema_migrations`) identical, reports the
distinct non-error "up to date" outcome, and its bootstrap detects the
current state and performs no action. -/
theorem claim_C4 (dbStr : String) (db : DB) (files : List MigFile) (res : RunResult)
    (hrun : runMigrations dbStr db files = res) (hok : res.err = none) :
    runMigrations dbStr res.db files = ⟨res.db, 0, none, true⟩
      ∧ bootstrap res.db files = (res.db, none) := by
  unfold runMigrations at hrun
  cases hp : parseDBConStr dbStr with
  | error e =>
    simp only [hp] at hrun
    rw [← hrun] at hok
    simp at hok
  | ok c =>
    simp only [hp] at hrun
    rcases hb : bootstrap db files with ⟨db1, oe1⟩
    cases oe1 with
    | some e =>
      simp only [hb] at hrun
      rw [← hrun] at hok
      simp at hok
    | none =>
      simp only [hb] at hrun
      obtain ⟨rows1, hm1⟩ := bootstrap_none db files db1 hb
      have hg : getMigrationsInDB db1 = .ok rows1 := by
        unfold getMigrationsInDB
        rw [hm1]
      simp only [hg] at hrun
      rcases hl : migrateLoop rows1 db1 files 0 with ⟨db2, n2, oe2⟩
      cases oe2 with
      | some e =>
        simp only [hl] at hrun
        rw [← hrun] at hok
        simp at hok
      | none =>
        simp only [hl] at hrun
        have hres : res = ⟨db2, n2, none, n2 == 0⟩ := hrun.symm
        subst hres
        obtain ⟨d, hd1, hd2⟩ := migrateLoop_none rows1 files db1 rows1 0 db2 n2 hm1 hl
        have hmem : ∀ f ∈ files, migrationNameFromFile f.path ∈ rows1 ++ d := by
          intro f hf
          rcases hd2 f hf with hin | hin
          · exact List.mem_append_left _ hin
          · exact hin
        have hb2 : bootstrap db2 files = (db2, none) := by
          unfold bootstrap
          rw [hd1]
        have hg2 : getMigrationsInDB db2 = .ok (rows1 ++ d) := by
          unfold getMigrationsInDB
          rw [hd1]
        have hl2 : migrateLoop (rows1 ++ d) db2 files 0 = (db2, 0, none) :=
          migrateLoop_skip_all (rows1 ++ d) db2 0 files hmem
        exact ⟨runMigrations_eq_of dbStr c db2 db2 (rows1 ++ d) db2 0 files hp hb2 hg2 hl2, hb2⟩

/-- Claim C4, witness: after the one-file run has applied `2018-01.sql`,
re-running applies nothing and reports "up to date". -/
theorem claim_C4_witness :
    runMigrations ("postgres:h::d:u:p") ⟨.current ["2018-01"], ["2018-01.sql"]⟩
        [⟨"2018-01.sql", none, none⟩]
      = ⟨⟨.current ["2018-01"], ["2018-01.sql"]⟩, 0, none, true⟩ :=
  (claim_C4 ("postgres:h::d:u:p") ⟨.absent, []⟩ [⟨"2018-01.sql", none, none⟩]
    ⟨⟨.current ["2018-01"], ["2018-01.sql"]⟩, 1, none, false⟩ (by decide) rfl).1

/-! ## Claim C9 -/

/-- Claim C9: if the list holds two paths with the same migration name
(lowercased basename minus `.sql`) and that name is not yet applied, a run
commits the first and fails on the second — the applied set was read once
before the loop, so the second insert hits the primary key and its whole
transaction (SQL effects included) rolls back; nothing after it is
attempted. -/
theorem claim_C9 (dbStr : String) (c : DbCon) (db : DB) (rows : List String)
    (pre mid post : List MigFile) (f1 f2 : MigFile)
    (hparse : parseDBConStr dbStr = .ok c)
    (hm : db.meta = .current rows)
    (hdup : migrationNameFromFile f2.path = migrationNameFromFile f1.path)
    (hnotyet : migrationNameFromFile f1.path ∉ rows)
    (hok : ∀ f ∈ pre ++ f1 :: mid, migrationNameFromFile f.path ∉ rows →
      f.readErr = none ∧ f.execErr = none)
    (hf2r : f2.readErr = none) (hf2e : f2.execErr = none)
    (hnd : (migNames (pendingFiles rows (pre ++ f1 :: mid))).Nodup) :
    runMigrations dbStr db (pre ++ f1 :: mid ++ f2 :: post) =
      ⟨⟨.current (rows ++ migNames (pendingFiles rows (pre ++ f1 :: mid))),
        db.executed ++ migPaths (pendingFiles rows (pre ++ f1 :: mid))⟩,
       (pendingFiles rows (pre ++ f1 :: mid)).length + 1, some duplicateKeyErr, false⟩ := by
  cases db with
  | mk meta0 exec0 =>
    dsimp only at hm ⊢
    subst hm
    have hA := migrateLoop_success rows (pre ++ f1 :: mid) rows exec0 0 hnd
      (fun f hf hn => ⟨(hok f hf hn).1, (hok f hf hn).2, hn⟩)
    have hf1mem : migrationNameFromFile f1.path
        ∈ migNames (pendingFiles rows (pre ++ f1 :: mid)) :=
      mem_migNames_pending (by simp) hnotyet
    have hdupmem : migrationNameFromFile f2.path
        ∈ rows ++ migNames (pendingFiles rows (pre ++ f1 :: mid)) := by
      rw [hdup]
      exact List.mem_append_right _ hf1mem
    have hrun2 := runMigration_dup
      ⟨.current (rows ++ migNames (pendingFiles rows (pre ++ f1 :: mid))),
        exec0 ++ migPaths (pendingFiles rows (pre ++ f1 :: mid))⟩
      f2 (rows ++ migNames (pendingFiles rows (pre ++ f1 :: mid))) hf2r hf2e rfl hdupmem
    have hf2notex : migrationNameFromFile f2.path ∉ rows := by
      rw [hdup]
      exact hnotyet
    have htail := migrateLoop_fail_head rows
      ⟨.current (rows ++ migNames (pendingFiles rows (pre ++ f1 :: mid))),
        exec0 ++ migPaths (pendingFiles rows (pre ++ f1 :: mid))⟩
      f2 post (0 + (pendingFiles rows (pre ++ f1 :: mid)).length) duplicateKeyErr hf2notex hrun2
    have hloop : migrateLoop rows ⟨.current rows, exec0⟩ ((pre ++ f1 :: mid) ++ (f2 :: post)) 0
        = (⟨.current (rows ++ migNames (pendingFiles rows (pre ++ f1 :: mid))),
            exec0 ++ migPaths (pendingFiles rows (pre ++ f1 :: mid))⟩,
           (0 + (pendingFiles rows (pre ++ f1 :: mid)).length) + 1, some duplicateKeyErr) := by
      rw [migrateLoop_append rows (pre ++ f1 :: mid) (f2 :: post) ⟨.current rows, exec0⟩ 0]
      simp only [hA]
      exact htail
    have hfinal := runMigrations_eq_of_err dbStr c ⟨.current rows, exec0⟩ ⟨.current rows, exec0⟩
      rows _ _ ((pre ++ f1 :: mid) ++ (f2 :: post)) duplicateKeyErr hparse rfl rfl hloop
    simp only [Nat.zero_add] at hfinal
    exact hfinal

/-- Claim C9, witness: `A.sql` and `dir/a.sql` share the migration name
`a`; the first commits, the second fails on the primary key. -/
theorem claim_C9_witness :
    runMigrations ("postgres:h::d:u:p") ⟨.current [], []⟩
        [⟨"A.sql", none, none⟩, ⟨"dir/a.sql", none, none⟩]
      = ⟨⟨.current ["a"], ["A.sql"]⟩, 2, some duplicateKeyErr, false⟩ :=
  claim_C9 ("postgres:h::d:u:p") ⟨"postgres", "h", "", "d", "u", "p", ""⟩
    ⟨.current [], []⟩ [] [] [] [] ⟨"A.sql", none, none⟩ ⟨"dir/a.sql", none, none⟩
    (by decide) rfl (by decide) (by decide) (by decide) rfl rfl (by decide)

/-! ## Claim C5 -/

theorem stdFiles_sublist_names (files : List MigFile) (hnd : (migNames files).Nodup) :
    (migNames (stdFiles files)).Nodup :=
  List.Nodup.sublist (List.Sublist.map _ (List.filter_sublist files)) hnd

theorem legacyFiles_sublist_names (files : List MigFile) (hnd : (migNames files).Nodup) :
    (migNames (legacyFiles files)).Nodup :=
  List.Nodup.sublist (List.Sublist.map _ (List.filter_sublist files)) hnd

/-- After the legacy replay has recorded exactly the legacy names, the
pending files of the loop are exactly the non-legacy files (the names being
distinct). -/
theorem pending_after_legacy (files : List MigFile) (hnd : (migNames files).Nodup) :
    pendingFiles (migNames (legacyFiles files)) files = stdFiles files := by
  unfold pendingFiles stdFiles
  apply List.filter_congr
  intro f hf
  by_cases hl : (legacyMigrationVersion f.path).snd = true
  · have hmem : migrationNameFromFile f.path ∈ migNames (legacyFiles files) := by
      unfold migNames legacyFiles
      exact List.mem_map_of_mem _ (List.mem_filter.mpr ⟨hf, by simpa using hl⟩)
    simp [hl, hmem]
  · have hmem : migrationNameFromFile f.path ∉ migNames (legacyFiles files) := by
      intro hmem
      unfold migNames legacyFiles at hmem
      obtain ⟨g, hg, hgname⟩ := List.mem_map.mp hmem
      obtain ⟨hgfiles, hgleg⟩ := List.mem_filter.mp hg
      have hgf : g = f := List.inj_on_of_nodup_map hnd hgfiles hf hgname
      subst hgf
      exact hl (by simpa using hgleg)
    simp [hl, hmem]

/-- Claim C5, counterexample: with the lexically ordered (supplied) list
`[0-1.sql, 0000-0001.sql]` against a fresh database, the run executes the
legacy file `0000-0001.sql` first — the execution order is not the
supplied order, because bootstrap replays legacy-named files before the
loop runs the rest. -/
theorem claim_C5_cex :
    (runMigrations ("postgres:h::d:u:p") ⟨.absent, []⟩
        [⟨"0-1.sql", none, none⟩, ⟨"0000-0001.sql", none, none⟩]).db.executed
      = ["0000-0001.sql", "0-1.sql"]
      ∧ (["0000-0001.sql", "0-1.sql"] : List String)
          ≠ migPaths [(⟨"0-1.sql", none, none⟩ : MigFile), ⟨"0000-0001.sql", none, none⟩] := by
  decide

/-- Claim C5 (amended): on a fresh database, bootstrap creates the current
table and replays exactly the legacy-named files (in supplied order)
through the transactional apply procedure, then the run applies exactly the
remaining files (in supplied order); every file is executed once and the
final applied set is a permutation of the migration names of all supplied
files. When every legacy file precedes every standard one in the supplied
list — the lexical-order case of the spec — this is the supplied order. -/
theorem claim_C5 (dbStr : String) (c : DbCon) (db : DB) (files : List MigFile)
    (hparse : parseDBConStr dbStr = .ok c)
    (hm : db.meta = .absent)
    (_hne : files ≠ [])
    (hok : ∀ f ∈ files, f.readErr = none ∧ f.execErr = none)
    (hnd : (migNames files).Nodup) :
    runMigrations dbStr db files =
      ⟨⟨.current (migNames (legacyFiles files) ++ migNames (stdFiles files)),
        db.executed ++ migPaths (legacyFiles files) ++ migPaths (stdFiles files)⟩,
       (stdFiles files).length, none, (stdFiles files).length == 0⟩
      ∧ List.Perm (migNames (legacyFiles files) ++ migNames (stdFiles files)) (migNames files) := by
  cases db with
  | mk meta0 exec0 =>
    dsimp only at hm ⊢
    subst hm
    have hlegnd : ([] ++ migNames (legacyFiles files)).Nodup := by
      simpa using legacyFiles_sublist_names files hnd
    have hlegacy := runLegacyMigrations_success files [] exec0 hlegnd
      (fun f hf _ => ⟨(hok f hf).1, (hok f hf).2⟩)
    have hboot : bootstrap ⟨.absent, exec0⟩ files
        = (⟨.current ([] ++ migNames (legacyFiles files)),
            exec0 ++ migPaths (legacyFiles files)⟩, none) := by
      unfold bootstrap
      exact hlegacy
    have hpend := pending_after_legacy files hnd
    have hloopnd : (migNames (pendingFiles (migNames (legacyFiles files)) files)).Nodup := by
      rw [hpend]
      exact stdFiles_sublist_names files hnd
    have hcond : ∀ f ∈ files, migrationNameFromFile f.path ∉ migNames (legacyFiles files) →
        f.readErr = none ∧ f.execErr = none
          ∧ migrationNameFromFile f.path ∉ [] ++ migNames (legacyFiles files) := by
      intro f hf hn
      exact ⟨(hok f hf).1, (hok f hf).2, by simpa using hn⟩
    have hloop := migrateLoop_success (migNames (legacyFiles files)) files
      ([] ++ migNames (legacyFiles files)) (exec0 ++ migPaths (legacyFiles files)) 0
      hloopnd hcond
    rw [hpend] at hloop
    have hg : getMigrationsInDB ⟨.current ([] ++ migNames (legacyFiles files)),
        exec0 ++ migPaths (legacyFiles files)⟩ = .ok ([] ++ migNames (legacyFiles files)) := rfl
    have hrunall := runMigrations_eq_of dbStr c ⟨.absent, exec0⟩
      ⟨.current ([] ++ migNames (legacyFiles files)), exec0 ++ migPaths (legacyFiles files)⟩
      ([] ++ migNames (legacyFiles files)) _ _ files hparse hboot hg hloop
    constructor
    · simpa using hrunall
    · have hperm := List.filter_append_perm (fun f => (legacyMigrationVersion f.path).snd) files
      have hmapped := hperm.map (fun f => migrationNameFromFile f.path)
      simpa [migNames, legacyFiles, stdFiles] using hmapped

/-- Claim C5, witness: the spec's fresh-database scenario — two legacy
files and one standard file, all executed, applied set = all three names. -/
theorem claim_C5_witness :
    runMigrations ("postgres:h::d:u:p") ⟨.absent, []⟩
        [⟨"0000-0000.sql", none, none⟩, ⟨"0000-0001.sql", none, none⟩,
          ⟨"2018-01-15-a.sql", none, none⟩]
      = ⟨⟨.current ["0000-0000", "0000-0001", "2018-01-15-a"],
          ["0000-0000.sql", "0000-0001.sql", "2018-01-15-a.sql"]⟩, 1, none, false⟩ :=
  (claim_C5 ("postgres:h::d:u:p") ⟨"postgres", "h", "", "d", "u", "p", ""⟩ ⟨.absent, []⟩
    [⟨"0000-0000.sql", none, none⟩, ⟨"0000-0001.sql", none, none⟩,
      ⟨"2018-01-15-a.sql", none, none⟩]
    (by decide) rfl (by decide) (by decide) (by decide)).1

/-! ## Claim C3 -/

/-- Extending the applied set by names that no pending file carries does
not change the pending files. -/
theorem pendingFiles_extend (rows extra : List String) (fs : List MigFile)
    (h : ∀ f ∈ fs, migrationNameFromFile f.path ∉ rows →
      migrationNameFromFile f.path ∉ extra) :
    pendingFiles (rows ++ extra) fs = pendingFiles rows fs := by
  unfold pendingFiles
  apply List.filter_congr
  intro f hf
  by_cases hr : migrationNameFromFile f.path ∈ rows
  · simp [hr]
  · simp [hr, h f hf hr]

/-- Claim C3, counterexample: a pending migration whose SQL fails makes the
run fail with the bare driver error — the returned error does not name the
offending file (`runMigration` returns `err` unwrapped), so "fails with
MigrationApplyFailed naming the file" does not hold of the returned
error. -/
theorem claim_C3_cex :
    (runMigrations ("postgres:h::d:u:p") ⟨.current [], []⟩
        [⟨"0002-b.sql", none, some ("pq: syntax error at or near \x22BOGUS\x22")⟩]).err
      = some ("pq: syntax error at or near \x22BOGUS\x22")
      ∧ containsStr ("0002-b") ("pq: syntax error at or near \x22BOGUS\x22") = false := by
  decide

/-- Claim C3 (amended): in the Current state, when the pending migration
`bad` fails (its SQL errors), the run commits exactly the pending files
before it, rolls `bad`'s transaction back (neither its SQL effects nor its
row persist), attempts nothing after it, and fails with the underlying
driver error (the offending file is logged, but not named in the returned
error). Re-running after fixing `bad` (same path, SQL now succeeding)
skips everything already applied and applies exactly `bad` and the
remaining pending files, in order. -/
theorem claim_C3 (dbStr : String) (c : DbCon) (db : DB) (rows : List String)
    (fs1 fs2 : List MigFile) (bad bad' : MigFile) (e : String)
    (hparse : parseDBConStr dbStr = .ok c)
    (hm : db.meta = .current rows)
    (hok1 : ∀ f ∈ fs1, migrationNameFromFile f.path ∉ rows →
      f.readErr = none ∧ f.execErr = none)
    (hnd : (migNames (pendingFiles rows (fs1 ++ bad :: fs2))).Nodup)
    (hbadpend : migrationNameFromFile bad.path ∉ rows)
    (hbadread : bad.readErr = none)
    (hbadexec : bad.execErr = some e)
    (hfixpath : bad'.path = bad.path)
    (hfixread : bad'.readErr = none)
    (hfixexec : bad'.execErr = none)
    (hok2 : ∀ f ∈ fs2, migrationNameFromFile f.path ∉ rows →
      f.readErr = none ∧ f.execErr = none) :
    runMigrations dbStr db (fs1 ++ bad :: fs2) =
      ⟨⟨.current (rows ++ migNames (pendingFiles rows fs1)),
        db.executed ++ migPaths (pendingFiles rows fs1)⟩,
       (pendingFiles rows fs1).length + 1, some e, false⟩
      ∧ runMigrations dbStr
          ⟨.current (rows ++ migNames (pendingFiles rows fs1)),
            db.executed ++ migPaths (pendingFiles rows fs1)⟩ (fs1 ++ bad' :: fs2) =
        ⟨⟨.current ((rows ++ migNames (pendingFiles rows fs1))
              ++ migrationNameFromFile bad.path :: migNames (pendingFiles rows fs2)),
          (db.executed ++ migPaths (pendingFiles rows fs1))
              ++ bad.path :: migPaths (pendingFiles rows fs2)⟩,
         (pendingFiles rows fs2).length + 1, none, false⟩ := by
  cases db with
  | mk meta0 exec0 =>
    dsimp only at hm ⊢
    subst hm
    have hsplitpend : pendingFiles rows (fs1 ++ bad :: fs2)
        = pendingFiles rows fs1 ++ bad :: pendingFiles rows fs2 := by
      rw [pendingFiles_append, pendingFiles_cons_notMem _ hbadpend]
    rw [hsplitpend] at hnd
    rw [migNames_append, migNames_cons] at hnd
    have hndP1 : (migNames (pendingFiles rows fs1)).Nodup := (List.nodup_append.mp hnd).1
    have hndtail := (List.nodup_append.mp hnd).2.1
    have hdisj := (List.nodup_append.mp hnd).2.2
    have hbadnotP1 : migrationNameFromFile bad.path ∉ migNames (pendingFiles rows fs1) :=
      fun hmem => hdisj hmem (List.mem_cons_self ..)
    have hbadnotP2 : migrationNameFromFile bad.path ∉ migNames (pendingFiles rows fs2) :=
      (List.nodup_cons.mp hndtail).1
    have hndP2 : (migNames (pendingFiles rows fs2)).Nodup := (List.nodup_cons.mp hndtail).2
    have hdisjP1P2 : ∀ a ∈ migNames (pendingFiles rows fs1),
        a ∉ migNames (pendingFiles rows fs2) :=
      fun a ha hb => hdisj ha (List.mem_cons_of_mem _ hb)
    -- first run
    have hA := migrateLoop_success rows fs1 rows exec0 0 hndP1
      (fun f hf hn => ⟨(hok1 f hf hn).1, (hok1 f hf hn).2, hn⟩)
    have hbadrun : runMigration
        ⟨.current (rows ++ migNames (pendingFiles rows fs1)),
          exec0 ++ migPaths (pendingFiles rows fs1)⟩ bad = .error e :=
      runMigration_execErr_eq _ bad e hbadread hbadexec
    have htail := migrateLoop_fail_head rows
      ⟨.current (rows ++ migNames (pendingFiles rows fs1)),
        exec0 ++ migPaths (pendingFiles rows fs1)⟩
      bad fs2 (0 + (pendingFiles rows fs1).length) e hbadpend hbadrun
    have hloop1 : migrateLoop rows ⟨.current rows, exec0⟩ (fs1 ++ bad :: fs2) 0
        = (⟨.current (rows ++ migNames (pendingFiles rows fs1)),
            exec0 ++ migPaths (pendingFiles rows fs1)⟩,
           (0 + (pendingFiles rows fs1).length) + 1, some e) := by
      rw [migrateLoop_append rows fs1 (bad :: fs2) ⟨.current rows, exec0⟩ 0]
      simp only [hA]
      exact htail
    have hrun1 := runMigrations_eq_of_err dbStr c ⟨.current rows, exec0⟩ ⟨.current rows, exec0⟩
      rows _ _ (fs1 ++ bad :: fs2) e hparse rfl rfl hloop1
    simp only [Nat.zero_add] at hrun1
    refine ⟨hrun1, ?_⟩
    -- second run, from the state the first run left behind
    have hskip : ∀ f ∈ fs1, migrationNameFromFile f.path
        ∈ rows ++ migNames (pendingFiles rows fs1) := by
      intro f hf
      by_cases hn : migrationNameFromFile f.path ∈ rows
      · exact List.mem_append_left _ hn
      · exact List.mem_append_right _ (mem_migNames_pending hf hn)
    have hloopskip := migrateLoop_skip_all (rows ++ migNames (pendingFiles rows fs1))
      ⟨.current (rows ++ migNames (pendingFiles rows fs1)),
        exec0 ++ migPaths (pendingFiles rows fs1)⟩ 0 fs1 hskip
    have hbadnot2 : migrationNameFromFile bad'.path
        ∉ rows ++ migNames (pendingFiles rows fs1) := by
      rw [hfixpath]
      intro hmem
      rcases List.mem_append.mp hmem with h3 | h3
      · exact hbadpend h3
      · exact hbadnotP1 h3
    have hins := runMigration_ok_run
      ⟨.current (rows ++ migNames (pendingFiles rows fs1)),
        exec0 ++ migPaths (pendingFiles rows fs1)⟩ bad'
      (rows ++ migNames (pendingFiles rows fs1)) hfixread hfixexec rfl hbadnot2
    rw [hfixpath] at hins
    have hpend2 : pendingFiles (rows ++ migNames (pendingFiles rows fs1)) fs2
        = pendingFiles rows fs2 := by
      apply pendingFiles_extend
      intro f hf hn hmem
      exact hdisjP1P2 _ hmem (mem_migNames_pending hf hn)
    have hloop2succ := migrateLoop_success (rows ++ migNames (pendingFiles rows fs1)) fs2
      ((rows ++ migNames (pendingFiles rows fs1)) ++ [migrationNameFromFile bad.path])
      ((exec0 ++ migPaths (pendingFiles rows fs1)) ++ [bad.path]) 1
      (by rw [hpend2]; exact hndP2) ?_
    · rw [hpend2] at hloop2succ
      have hloop2 : migrateLoop (rows ++ migNames (pendingFiles rows fs1))
          ⟨.current (rows ++ migNames (pendingFiles rows fs1)),
            exec0 ++ migPaths (pendingFiles rows fs1)⟩ (fs1 ++ bad' :: fs2) 0
          = (⟨.current (((rows ++ migNames (pendingFiles rows fs1))
                ++ [migrationNameFromFile bad.path]) ++ migNames (pendingFiles rows fs2)),
              ((exec0 ++ migPaths (pendingFiles rows fs1)) ++ [bad.path])
                ++ migPaths (pendingFiles rows fs2)⟩,
             1 + (pendingFiles rows fs2).length, none) := by
        rw [migrateLoop_append]
        simp only [hloopskip]
        simp only [migrateLoop, if_neg hbadnot2]
        rw [hins]
        exact hloop2succ
      have hrun2 := runMigrations_eq_of dbStr c
        ⟨.current (rows ++ migNames (pendingFiles rows fs1)),
          exec0 ++ migPaths (pendingFiles rows fs1)⟩
        ⟨.current (rows ++ migNames (pendingFiles rows fs1)),
          exec0 ++ migPaths (pendingFiles rows fs1)⟩
        (rows ++ migNames (pendingFiles rows fs1)) _ _ (fs1 ++ bad' :: fs2)
        hparse rfl rfl hloop2
      rw [← List.append_cons (rows ++ migNames (pendingFiles rows fs1))
          (migrationNameFromFile bad.path) (migNames (pendingFiles rows fs2)),
        ← List.append_cons (exec0 ++ migPaths (pendingFiles rows fs1))
          bad.path (migPaths (pendingFiles rows fs2))] at hrun2
      have harith : 1 + (pendingFiles rows fs2).length
          = (pendingFiles rows fs2).length + 1 := Nat.add_comm ..
      rw [harith] at hrun2
      exact hrun2
    · intro f hf hn
      have hnrows : migrationNameFromFile f.path ∉ rows :=
        fun hr => hn (List.mem_append_left _ hr)
      obtain ⟨h1, h2⟩ := hok2 f hf hnrows
      refine ⟨h1, h2, ?_⟩
      intro hmem
      rcases List.mem_append.mp hmem with h3 | h3
      · exact hn h3
      · have heq2 : migrationNameFromFile f.path = migrationNameFromFile bad.path := by
          simpa using h3
        exact hbadnotP2 (heq2 ▸ mem_migNames_pending hf hnrows)

/-- Claim C3, witness: the spec's three-migration scenario — the second of
three pending migrations fails, the first stays committed, the third is
never attempted; after fixing the second file, the re-run applies exactly
the second and third. -/
theorem claim_C3_witness :
    runMigrations ("postgres:h::d:u:p") ⟨.current [], []⟩
        [⟨"0001-a.sql", none, none⟩,
          ⟨"0002-b.sql", none, some ("pq: syntax error at or near \x22BOGUS\x22")⟩,
          ⟨"0003-c.sql", none, none⟩]
      = ⟨⟨.current ["0001-a"], ["0001-a.sql"]⟩, 2,
          some ("pq: syntax error at or near \x22BOGUS\x22"), false⟩
      ∧ runMigrations ("postgres:h::d:u:p") ⟨.current ["0001-a"], ["0001-a.sql"]⟩
          [⟨"0001-a.sql", none, none⟩, ⟨"0002-b.sql", none, none⟩,
            ⟨"0003-c.sql", none, none⟩]
        = ⟨⟨.current ["0001-a", "0002-b", "0003-c"],
            ["0001-a.sql", "0002-b.sql", "0003-c.sql"]⟩, 2, none, false⟩ :=
  claim_C3 ("postgres:h::d:u:p") ⟨"postgres", "h", "", "d", "u", "p", ""⟩
    ⟨.current [], []⟩ [] [⟨"0001-a.sql", none, none⟩] [⟨"0003-c.sql", none, none⟩]
    ⟨"0002-b.sql", none, some ("pq: syntax error at or near \x22BOGUS\x22")⟩
    ⟨"0002-b.sql", none, none⟩ ("pq: syntax error at or near \x22BOGUS\x22")
    (by decide) rfl (by decide) (by decide) (by decide) rfl rfl rfl rfl rfl (by decide)

end Migrator
